import Mathlib

/-!
Verification development for the `xh` duplicate-file finder.

The Python sources are shallowly embedded:

* `hasher.py` — digest computation over anchored file regions, with a
  small-file short-circuit to a cached whole-file digest.  The external
  xxHash64 function is modelled as an arbitrary function
  `hash : List Nat → Nat` (a digest is an opaque value; no claim depends
  on properties of the hash itself), and the filesystem as an arbitrary
  map `fs : String → Option (List Nat)` from a path to the byte contents
  readable there (`none` models any I/O failure: the file vanished,
  permissions revoked, etc.).  Each hashing operation additionally
  returns the number of successful whole-file / region reads it
  performed, so that the caching claims ("the file is read at most
  once") can be stated; this counter does not influence any other
  output.
* `grouper.py` — generic keyed bucketing.  A Python `dict` preserves
  insertion order of keys, so buckets are modelled as an association
  list `List (κ × List FileInfo)` in key-first-seen order, appending
  within a bucket; a key function that raises or returns `None` is
  modelled as returning `none`.
* `deduplicator.py` — the `find_duplicates` cascade, modelled on its
  `enable_stats = False` path (statistics collection changes no
  grouping decision and no emitted group).  The per-file cache mutation
  performed by the hashers is reflected by deriving, for each stage, the
  pure key the stage computes on a fresh record over a fixed filesystem;
  with the filesystem fixed during a run this is the value the mutated
  record would carry.
-/

/-- One file record, as built by `scan_directory` in `core.py`:
`path`, `size`, and the whole-file digest cache (`full_hash` is the
boolean mark set by `compute_full_hash`; `full_hash_value` is the
`_full_hash_value` slot). Fresh records have the cache empty. -/
structure FileInfo where
  path : String
  size : Nat
  full_hash : Bool := false
  full_hash_value : Option Nat := none
deriving DecidableEq, Repr

/-- `FULL_HASH_THRESHOLD = 254 * 1024` from `hasher.py`: files of at
most this size are always fully hashed. -/
def FULL_HASH_THRESHOLD : Nat := 254 * 1024

/-- `get_chunk_size` from `hasher.py`: chunk size used for region
hashing, chosen from the file size. -/
def get_chunk_size (file_size : Nat) : Nat :=
  if file_size ≤ FULL_HASH_THRESHOLD then file_size
  else if file_size ≤ 5 * 1024 * 1024 then 64 * 1024
  else if file_size ≤ 15 * 1024 * 1024 then 128 * 1024
  else if file_size ≤ 30 * 1024 * 1024 then 256 * 1024
  else if file_size ≤ 60 * 1024 * 1024 then 512 * 1024
  else if file_size ≤ 120 * 1024 * 1024 then 1 * 1024 * 1024
  else 2 * 1024 * 1024

/-- `compute_full_hash` from `hasher.py`.  Returns the digest (or
`none` on I/O failure), the possibly-updated record, and how many
successful whole-file reads were performed (0 or 1).  On success the
digest is stored on the record and `full_hash` is set; on failure the
record is unchanged. -/
def compute_full_hash (hash : List Nat → Nat) (fs : String → Option (List Nat))
    (file_info : FileInfo) : Option Nat × FileInfo × Nat :=
  if file_info.full_hash then (file_info.full_hash_value, file_info, 0)
  else
    match fs file_info.path with
    | some contents =>
        let digest := hash contents
        (some digest,
         { file_info with full_hash := true, full_hash_value := some digest }, 1)
    | none => (none, file_info, 0)

/-- `compute_hash_at_offset` from `hasher.py`: seek to `offset`, read up
to `chunk_size` bytes, hash them; an empty read or an I/O failure yields
`none`.  The second component counts successful reads. -/
def compute_hash_at_offset (hash : List Nat → Nat) (fs : String → Option (List Nat))
    (file_info : FileInfo) (offset chunk_size : Nat) : Option Nat × Nat :=
  match fs file_info.path with
  | some contents =>
      let chunk := (contents.drop offset).take chunk_size
      if chunk.isEmpty then (none, 1) else (some (hash chunk), 1)
  | none => (none, 0)

/-- The `use_full_hash_if_small` decorator from `hasher.py`: return the
cached whole-file digest if present; otherwise fully hash small files
(≤ `FULL_HASH_THRESHOLD`); otherwise run the wrapped region hasher,
which never mutates the record. -/
def use_full_hash_if_small (hash : List Nat → Nat) (fs : String → Option (List Nat))
    (func : FileInfo → Option Nat × Nat) (file_info : FileInfo) :
    Option Nat × FileInfo × Nat :=
  if file_info.full_hash then (file_info.full_hash_value, file_info, 0)
  else if file_info.size ≤ FULL_HASH_THRESHOLD then compute_full_hash hash fs file_info
  else
    let r := func file_info
    (r.1, file_info, r.2)

/-- Body of `compute_partial_hash` (hash of the first `chunk_size`
bytes), before the decorator. -/
def compute_partial_hash_body (hash : List Nat → Nat) (fs : String → Option (List Nat))
    (file_info : FileInfo) : Option Nat × Nat :=
  compute_hash_at_offset hash fs file_info 0 (get_chunk_size file_info.size)

/-- Body of `compute_end_hash` (hash of the last `chunk_size` bytes):
offset `max(0, size - chunk_size)` (truncated subtraction on `Nat`
coincides with Python's `max(0, ...)` here). -/
def compute_end_hash_body (hash : List Nat → Nat) (fs : String → Option (List Nat))
    (file_info : FileInfo) : Option Nat × Nat :=
  let c := get_chunk_size file_info.size
  compute_hash_at_offset hash fs file_info (file_info.size - c) c

/-- Body of `compute_middle_hash`: offset `max(0, (size - chunk) // 2)`. -/
def compute_middle_hash_body (hash : List Nat → Nat) (fs : String → Option (List Nat))
    (file_info : FileInfo) : Option Nat × Nat :=
  let c := get_chunk_size file_info.size
  compute_hash_at_offset hash fs file_info ((file_info.size - c) / 2) c

/-- Body of `compute_first_quarter_hash`: offset
`max(0, size // 4 - chunk // 2)`. -/
def compute_first_quarter_hash_body (hash : List Nat → Nat) (fs : String → Option (List Nat))
    (file_info : FileInfo) : Option Nat × Nat :=
  let c := get_chunk_size file_info.size
  compute_hash_at_offset hash fs file_info (file_info.size / 4 - c / 2) c

/-- Body of `compute_third_quarter_hash`: offset
`max(0, 3 * size // 4 - chunk // 2)`. -/
def compute_third_quarter_hash_body (hash : List Nat → Nat) (fs : String → Option (List Nat))
    (file_info : FileInfo) : Option Nat × Nat :=
  let c := get_chunk_size file_info.size
  compute_hash_at_offset hash fs file_info (3 * file_info.size / 4 - c / 2) c

/-- `compute_partial_hash` as exported by `hasher.py` (decorated). -/
def compute_partial_hash (hash : List Nat → Nat) (fs : String → Option (List Nat))
    (file_info : FileInfo) : Option Nat × FileInfo × Nat :=
  use_full_hash_if_small hash fs (compute_partial_hash_body hash fs) file_info

/-- `compute_end_hash` as exported by `hasher.py` (decorated). -/
def compute_end_hash (hash : List Nat → Nat) (fs : String → Option (List Nat))
    (file_info : FileInfo) : Option Nat × FileInfo × Nat :=
  use_full_hash_if_small hash fs (compute_end_hash_body hash fs) file_info

/-- `compute_middle_hash` as exported by `hasher.py` (decorated). -/
def compute_middle_hash (hash : List Nat → Nat) (fs : String → Option (List Nat))
    (file_info : FileInfo) : Option Nat × FileInfo × Nat :=
  use_full_hash_if_small hash fs (compute_middle_hash_body hash fs) file_info

/-- `compute_first_quarter_hash` as exported by `hasher.py` (decorated). -/
def compute_first_quarter_hash (hash : List Nat → Nat) (fs : String → Option (List Nat))
    (file_info : FileInfo) : Option Nat × FileInfo × Nat :=
  use_full_hash_if_small hash fs (compute_first_quarter_hash_body hash fs) file_info

/-- `compute_third_quarter_hash` as exported by `hasher.py` (decorated). -/
def compute_third_quarter_hash (hash : List Nat → Nat) (fs : String → Option (List Nat))
    (file_info : FileInfo) : Option Nat × FileInfo × Nat :=
  use_full_hash_if_small hash fs (compute_third_quarter_hash_body hash fs) file_info

/-- Run a list of stateful digest operations in sequence, threading the
record through and summing the read counts. -/
def runOps (ops : List (FileInfo → Option Nat × FileInfo × Nat)) (file_info : FileInfo) :
    FileInfo × Nat :=
  match ops with
  | [] => (file_info, 0)
  | op :: rest =>
      let r := op file_info
      let s := runOps rest r.2.1
      (s.1, r.2.2 + s.2)

/-- Insert `file_info` into the bucket keyed `k`, appending to the
bucket if the key is already present and adding a new bucket at the end
otherwise — exactly the behaviour of `defaultdict(list)` under
insertion-ordered Python dicts. -/
def insertGroup {κ : Type} [DecidableEq κ] :
    List (κ × List FileInfo) → κ → FileInfo → List (κ × List FileInfo)
  | [], k, file_info => [(k, [file_info])]
  | (k', l) :: rest, k, file_info =>
      if k = k' then (k', l ++ [file_info]) :: rest
      else (k', l) :: insertGroup rest k file_info

/-- One iteration of the `group_files` loop: a record whose key
function fails or returns no key (modelled as `none`) is dropped,
otherwise it is appended to the bucket for its key. -/
def groupStep {κ : Type} [DecidableEq κ] (key_func : FileInfo → Option κ)
    (groups : List (κ × List FileInfo)) (file_info : FileInfo) :
    List (κ × List FileInfo) :=
  match key_func file_info with
  | some k => insertGroup groups k file_info
  | none => groups

/-- `group_files` from `grouper.py`: bucket records by `key_func`,
dropping any record whose key function fails or returns no key. -/
def group_files {κ : Type} [DecidableEq κ] (key_func : FileInfo → Option κ)
    (file_infos : List FileInfo) : List (κ × List FileInfo) :=
  file_infos.foldl (groupStep key_func) []

/-- `group_by_size` from `grouper.py`: bucket records by the
precomputed `size` field; no key function, no I/O, nothing dropped. -/
def group_by_size (file_infos : List FileInfo) : List (Nat × List FileInfo) :=
  file_infos.foldl (fun groups file_info => insertGroup groups file_info.size file_info) []

/-- The pure key `group_by_partial_hash` computes for a fresh record:
the digest component of `compute_partial_hash`. -/
def partialKey (hash : List Nat → Nat) (fs : String → Option (List Nat))
    (file_info : FileInfo) : Option Nat :=
  (compute_partial_hash hash fs file_info).1

/-- The pure key `group_by_end_hash` computes for a fresh record. -/
def endKey (hash : List Nat → Nat) (fs : String → Option (List Nat))
    (file_info : FileInfo) : Option Nat :=
  (compute_end_hash hash fs file_info).1

/-- The pure key `group_by_middle_hash` computes for a fresh record. -/
def middleKey (hash : List Nat → Nat) (fs : String → Option (List Nat))
    (file_info : FileInfo) : Option Nat :=
  (compute_middle_hash hash fs file_info).1

/-- The pure key `group_by_first_quarter_hash` computes. -/
def firstQuarterKey (hash : List Nat → Nat) (fs : String → Option (List Nat))
    (file_info : FileInfo) : Option Nat :=
  (compute_first_quarter_hash hash fs file_info).1

/-- The pure key `group_by_third_quarter_hash` computes. -/
def thirdQuarterKey (hash : List Nat → Nat) (fs : String → Option (List Nat))
    (file_info : FileInfo) : Option Nat :=
  (compute_third_quarter_hash hash fs file_info).1

/-- The pure key `group_by_full_hash` computes. -/
def fullKey (hash : List Nat → Nat) (fs : String → Option (List Nat))
    (file_info : FileInfo) : Option Nat :=
  (compute_full_hash hash fs file_info).1

/-- `group_by_partial_hash` from `grouper.py`. -/
def group_by_partial_hash (hash : List Nat → Nat) (fs : String → Option (List Nat))
    (file_infos : List FileInfo) : List (Nat × List FileInfo) :=
  group_files (partialKey hash fs) file_infos

/-- `group_by_end_hash` from `grouper.py`. -/
def group_by_end_hash (hash : List Nat → Nat) (fs : String → Option (List Nat))
    (file_infos : List FileInfo) : List (Nat × List FileInfo) :=
  group_files (endKey hash fs) file_infos

/-- `group_by_middle_hash` from `grouper.py`. -/
def group_by_middle_hash (hash : List Nat → Nat) (fs : String → Option (List Nat))
    (file_infos : List FileInfo) : List (Nat × List FileInfo) :=
  group_files (middleKey hash fs) file_infos

/-- `group_by_first_quarter_hash` from `grouper.py`. -/
def group_by_first_quarter_hash (hash : List Nat → Nat) (fs : String → Option (List Nat))
    (file_infos : List FileInfo) : List (Nat × List FileInfo) :=
  group_files (firstQuarterKey hash fs) file_infos

/-- `group_by_third_quarter_hash` from `grouper.py`. -/
def group_by_third_quarter_hash (hash : List Nat → Nat) (fs : String → Option (List Nat))
    (file_infos : List FileInfo) : List (Nat × List FileInfo) :=
  group_files (thirdQuarterKey hash fs) file_infos

/-- `group_by_full_hash` from `grouper.py`. -/
def group_by_full_hash (hash : List Nat → Nat) (fs : String → Option (List Nat))
    (file_infos : List FileInfo) : List (Nat × List FileInfo) :=
  group_files (fullKey hash fs) file_infos

/-- Bucket lookup: the bucket stored under key `k`, or `[]` when the
key is absent. -/
def lookupB {κ : Type} [DecidableEq κ] :
    List (κ × List FileInfo) → κ → List FileInfo
  | [], _ => []
  | (k', l) :: rest, k => if k = k' then l else lookupB rest k

/-- One emitted duplicate group of `find_duplicates`: the size of the
originating SIZE bucket and the paths of the grouped files. -/
structure CandidateGroup where
  size : Nat
  files : List String
deriving DecidableEq, Repr

/-- Emit every bucket with at least two members as a `CandidateGroup`
of the given size — the `if len(...) >= 2: potential_duplicates.append`
pattern of `find_duplicates`. -/
def emitGroups (size : Nat) (buckets : List (Nat × List FileInfo)) : List CandidateGroup :=
  (buckets.filter (fun b => decide (2 ≤ b.2.length))).map
    (fun b => { size := size, files := b.2.map (fun f => f.path) })

/-- The `if len(fqpaths) < 2: continue` body of normal mode's
THIRD_QUARTER loop in `find_duplicates`: groups emitted for one
FIRST_QUARTER bucket. -/
def process_fq_bucket (hash : List Nat → Nat) (fs : String → Option (List Nat))
    (size : Nat) (fq_files : List FileInfo) : List CandidateGroup :=
  if fq_files.length < 2 then []
  else emitGroups size (group_by_third_quarter_hash hash fs fq_files)

/-- The `elif mode == 'normal'` branch of `find_duplicates` for one
surviving MIDDLE bucket: FIRST_QUARTER bucketing, the before/after
count comparison, and either direct emission or THIRD_QUARTER
bucketing. -/
def process_middle_normal (hash : List Nat → Nat) (fs : String → Option (List Nat))
    (size : Nat) (middle_files : List FileInfo) : List CandidateGroup :=
  let fq_hash_group := group_by_first_quarter_hash hash fs middle_files
  let total_groups_before : Nat := fq_hash_group.length
  let total_files_before : Nat := (fq_hash_group.map (fun b => b.2.length)).sum
  let valid_fq_groups := fq_hash_group.filter (fun b => decide (2 ≤ b.2.length))
  let total_groups_after : Nat := valid_fq_groups.length
  let total_files_after : Nat := (valid_fq_groups.map (fun b => b.2.length)).sum
  if total_groups_before = total_groups_after ∧ total_files_before = total_files_after then
    emitGroups size fq_hash_group
  else
    fq_hash_group.flatMap (fun b => process_fq_bucket hash fs size b.2)

/-- The body of `find_duplicates`' MIDDLE loop: skip buckets of fewer
than two files, then branch on the mode ('fast' emits the bucket,
'normal' continues with quarters, 'full' with the whole-file digest,
anything else falls through and emits nothing). -/
def process_middle_bucket (hash : List Nat → Nat) (fs : String → Option (List Nat))
    (mode : String) (size : Nat) (middle_files : List FileInfo) : List CandidateGroup :=
  if middle_files.length < 2 then []
  else if mode = "fast" then
    [{ size := size, files := middle_files.map (fun f => f.path) }]
  else if mode = "normal" then process_middle_normal hash fs size middle_files
  else if mode = "full" then emitGroups size (group_by_full_hash hash fs middle_files)
  else []

/-- The body of `find_duplicates`' END loop: skip small buckets, then
bucket by MIDDLE hash. -/
def process_end_bucket (hash : List Nat → Nat) (fs : String → Option (List Nat))
    (mode : String) (size : Nat) (end_files : List FileInfo) : List CandidateGroup :=
  if end_files.length < 2 then []
  else
    (group_by_middle_hash hash fs end_files).flatMap
      (fun b => process_middle_bucket hash fs mode size b.2)

/-- The body of `find_duplicates`' PARTIAL loop: skip small buckets,
then bucket by END hash. -/
def process_partial_bucket (hash : List Nat → Nat) (fs : String → Option (List Nat))
    (mode : String) (size : Nat) (partial_files : List FileInfo) : List CandidateGroup :=
  if partial_files.length < 2 then []
  else
    (group_by_end_hash hash fs partial_files).flatMap
      (fun b => process_end_bucket hash fs mode size b.2)

/-- The body of `find_duplicates`' SIZE loop: skip single files, then
bucket by PARTIAL hash. -/
def process_size_bucket (hash : List Nat → Nat) (fs : String → Option (List Nat))
    (mode : String) (size : Nat) (same_size_files : List FileInfo) : List CandidateGroup :=
  if same_size_files.length < 2 then []
  else
    (group_by_partial_hash hash fs same_size_files).flatMap
      (fun b => process_partial_bucket hash fs mode size b.2)

/-- `find_duplicates` from `deduplicator.py` (the `enable_stats = False`
path): the SIZE → PARTIAL → END → MIDDLE cascade with mode-dependent
processing of surviving MIDDLE buckets, emitting `potential_duplicates`
in iteration order (appends to the accumulator become concatenation). -/
def find_duplicates (hash : List Nat → Nat) (fs : String → Option (List Nat))
    (files : List FileInfo) (mode : String) : List CandidateGroup :=
  (group_by_size files).flatMap (fun b => process_size_bucket hash fs mode b.1 b.2)

/-- The mode-independent front of the cascade, written out from the
spec's description (§4.3): the `(size, middle bucket)` pairs that
survive SIZE → PARTIAL → END → MIDDLE with every stage pruning buckets
of fewer than two files before paying for the next stage. -/
def middle_survivors (hash : List Nat → Nat) (fs : String → Option (List Nat))
    (files : List FileInfo) : List (Nat × List FileInfo) :=
  (group_by_size files).flatMap (fun sb =>
    if sb.2.length < 2 then []
    else
      (group_by_partial_hash hash fs sb.2).flatMap (fun pb =>
        if pb.2.length < 2 then []
        else
          (group_by_end_hash hash fs pb.2).flatMap (fun eb =>
            if eb.2.length < 2 then []
            else
              (group_by_middle_hash hash fs eb.2).map (fun mb => (sb.1, mb.2)))))

/-- The §4.1 chunk-size table exactly as the spec states it, for sizes
above the small-file threshold (inclusive upper bounds). -/
def spec_chunk_size (file_size : Nat) : Nat :=
  if file_size ≤ 5 * 1024 * 1024 then 64 * 1024
  else if file_size ≤ 15 * 1024 * 1024 then 128 * 1024
  else if file_size ≤ 30 * 1024 * 1024 then 256 * 1024
  else if file_size ≤ 60 * 1024 * 1024 then 512 * 1024
  else if file_size ≤ 120 * 1024 * 1024 then 1 * 1024 * 1024
  else 2 * 1024 * 1024

/-- A concrete stand-in for the 64-bit hash, used only to instantiate
witnesses. -/
def hashW (l : List Nat) : Nat := l.foldl (fun a b => a * 256 + b + 1) 7

/-- A concrete filesystem for witnesses: `a` and `b` hold identical
bytes, `c` differs, everything else is unreadable. -/
def fsW : String → Option (List Nat) := fun p =>
  if p = "a" then some [1, 2, 3]
  else if p = "b" then some [1, 2, 3]
  else if p = "c" then some [9, 9, 9]
  else none

/-- Fresh record for path `a` (three bytes). -/
def recA : FileInfo := { path := "a", size := 3 }

/-- Fresh record for path `b` (three bytes, same contents as `a`). -/
def recB : FileInfo := { path := "b", size := 3 }

/-- Fresh record for path `c` (three bytes, different contents). -/
def recC : FileInfo := { path := "c", size := 3 }

/-- Fresh record for an unreadable path. -/
def recM : FileInfo := { path := "missing", size := 3 }

/-- C6: for every file size above the 254 KiB small-file threshold the
chunk size selected by `get_chunk_size` matches the §4.1 table with
inclusive upper bounds, and at each boundary (5, 15, 30, 60, 120 MiB)
and one byte above/below it the selected chunk size matches the table
exactly. -/
theorem C6_chunk_size_table :
    (∀ file_size : Nat, FULL_HASH_THRESHOLD < file_size →
        get_chunk_size file_size = spec_chunk_size file_size) ∧
    get_chunk_size (5 * 1024 * 1024 - 1) = 64 * 1024 ∧
    get_chunk_size (5 * 1024 * 1024) = 64 * 1024 ∧
    get_chunk_size (5 * 1024 * 1024 + 1) = 128 * 1024 ∧
    get_chunk_size (15 * 1024 * 1024 - 1) = 128 * 1024 ∧
    get_chunk_size (15 * 1024 * 1024) = 128 * 1024 ∧
    get_chunk_size (15 * 1024 * 1024 + 1) = 256 * 1024 ∧
    get_chunk_size (30 * 1024 * 1024 - 1) = 256 * 1024 ∧
    get_chunk_size (30 * 1024 * 1024) = 256 * 1024 ∧
    get_chunk_size (30 * 1024 * 1024 + 1) = 512 * 1024 ∧
    get_chunk_size (60 * 1024 * 1024 - 1) = 512 * 1024 ∧
    get_chunk_size (60 * 1024 * 1024) = 512 * 1024 ∧
    get_chunk_size (60 * 1024 * 1024 + 1) = 1024 * 1024 ∧
    get_chunk_size (120 * 1024 * 1024 - 1) = 1024 * 1024 ∧
    get_chunk_size (120 * 1024 * 1024) = 1024 * 1024 ∧
    get_chunk_size (120 * 1024 * 1024 + 1) = 2 * 1024 * 1024 := by
  refine ⟨?_, by decide, by decide, by decide, by decide, by decide, by decide, by decide,
    by decide, by decide, by decide, by decide, by decide, by decide, by decide, by decide⟩
  intro s h
  unfold get_chunk_size spec_chunk_size FULL_HASH_THRESHOLD at *
  rw [if_neg (by omega)]

/-- Witness for C6 at the 5 MiB boundary. -/
theorem C6_chunk_size_table_witness :
    FULL_HASH_THRESHOLD < 5 * 1024 * 1024 ∧
    get_chunk_size (5 * 1024 * 1024) = spec_chunk_size (5 * 1024 * 1024) :=
  ⟨by decide, C6_chunk_size_table.1 (5 * 1024 * 1024) (by decide)⟩

/-- C7: calling `compute_full_hash` twice on the same record (over the
same, unchanged filesystem) returns the identical digest both times,
the two calls together perform at most one whole-file read and the
second call performs none, and a first call that returns a digest has
stored exactly that digest on the record with the cache mark set. -/
theorem C7_full_hash_cached (hash : List Nat → Nat) (fs : String → Option (List Nat))
    (file_info : FileInfo) :
    (compute_full_hash hash fs (compute_full_hash hash fs file_info).2.1).1
        = (compute_full_hash hash fs file_info).1 ∧
    (compute_full_hash hash fs (compute_full_hash hash fs file_info).2.1).2.2 = 0 ∧
    (compute_full_hash hash fs file_info).2.2
        + (compute_full_hash hash fs (compute_full_hash hash fs file_info).2.1).2.2 ≤ 1 ∧
    (∀ d : Nat, (compute_full_hash hash fs file_info).1 = some d →
        (compute_full_hash hash fs file_info).2.1.full_hash_value = some d ∧
        (compute_full_hash hash fs file_info).2.1.full_hash = true) := by
  by_cases hfh : file_info.full_hash
  · simp [compute_full_hash, hfh]
  · cases hfs : fs file_info.path with
    | none => simp [compute_full_hash, hfh, hfs]
    | some contents => simp [compute_full_hash, hfh, hfs]

/-- Witness for C7: the conditional clause at a concrete record whose
first call succeeds and stores the digest. -/
theorem C7_full_hash_cached_witness :
    (compute_full_hash hashW fsW recA).2.1.full_hash_value = some (hashW [1, 2, 3]) ∧
    (compute_full_hash hashW fsW recA).2.1.full_hash = true :=
  (C7_full_hash_cached hashW fsW recA).2.2.2 (hashW [1, 2, 3]) (by rfl)

/-- For a record at or below the small-file threshold, the decorator
makes any region hasher behave exactly like `compute_full_hash`. -/
theorem small_wrapped_eq_full (hash : List Nat → Nat) (fs : String → Option (List Nat))
    (func : FileInfo → Option Nat × Nat) (file_info : FileInfo)
    (h : file_info.size ≤ FULL_HASH_THRESHOLD) :
    use_full_hash_if_small hash fs func file_info = compute_full_hash hash fs file_info := by
  by_cases hfh : file_info.full_hash
  · simp [use_full_hash_if_small, compute_full_hash, hfh]
  · simp [use_full_hash_if_small, compute_full_hash, hfh, h]

/-- Small-file case of `compute_partial_hash`. -/
theorem compute_partial_hash_small (hash : List Nat → Nat) (fs : String → Option (List Nat))
    (file_info : FileInfo) (h : file_info.size ≤ FULL_HASH_THRESHOLD) :
    compute_partial_hash hash fs file_info = compute_full_hash hash fs file_info := by
  unfold compute_partial_hash
  exact small_wrapped_eq_full hash fs _ file_info h

/-- Small-file case of `compute_end_hash`. -/
theorem compute_end_hash_small (hash : List Nat → Nat) (fs : String → Option (List Nat))
    (file_info : FileInfo) (h : file_info.size ≤ FULL_HASH_THRESHOLD) :
    compute_end_hash hash fs file_info = compute_full_hash hash fs file_info := by
  unfold compute_end_hash
  exact small_wrapped_eq_full hash fs _ file_info h

/-- Small-file case of `compute_middle_hash`. -/
theorem compute_middle_hash_small (hash : List Nat → Nat) (fs : String → Option (List Nat))
    (file_info : FileInfo) (h : file_info.size ≤ FULL_HASH_THRESHOLD) :
    compute_middle_hash hash fs file_info = compute_full_hash hash fs file_info := by
  unfold compute_middle_hash
  exact small_wrapped_eq_full hash fs _ file_info h

/-- Small-file case of `compute_first_quarter_hash`. -/
theorem compute_first_quarter_hash_small (hash : List Nat → Nat) (fs : String → Option (List Nat))
    (file_info : FileInfo) (h : file_info.size ≤ FULL_HASH_THRESHOLD) :
    compute_first_quarter_hash hash fs file_info = compute_full_hash hash fs file_info := by
  unfold compute_first_quarter_hash
  exact small_wrapped_eq_full hash fs _ file_info h

/-- Small-file case of `compute_third_quarter_hash`. -/
theorem compute_third_quarter_hash_small (hash : List Nat → Nat) (fs : String → Option (List Nat))
    (file_info : FileInfo) (h : file_info.size ≤ FULL_HASH_THRESHOLD) :
    compute_third_quarter_hash hash fs file_info = compute_full_hash hash fs file_info := by
  unfold compute_third_quarter_hash
  exact small_wrapped_eq_full hash fs _ file_info h

/-- A sequence of operations that each behave like `compute_full_hash`
on small records does nothing at all once the record carries the cached
digest. -/
theorem runOps_cached (hash : List Nat → Nat) (fs : String → Option (List Nat)) :
    ∀ ops : List (FileInfo → Option Nat × FileInfo × Nat),
      (∀ op ∈ ops, ∀ fi : FileInfo, fi.size ≤ FULL_HASH_THRESHOLD →
          op fi = compute_full_hash hash fs fi) →
      ∀ fi : FileInfo, fi.size ≤ FULL_HASH_THRESHOLD → fi.full_hash = true →
        runOps ops fi = (fi, 0) := by
  intro ops
  induction ops with
  | nil => intro _ fi _ _; rfl
  | cons op rest ih =>
      intro hops fi hsize hfh
      have hcall : op fi = (fi.full_hash_value, fi, 0) := by
        rw [hops op (by simp) fi hsize]
        simp [compute_full_hash, hfh]
      have hrest := ih (fun o ho fi' h' => hops o (by simp [ho]) fi' h') fi hsize hfh
      simp [runOps, hcall, hrest]

/-- A sequence of operations that each behave like `compute_full_hash`
on small records performs at most one read in total on a small record:
the first successful read caches the digest, after which every later
operation returns the cached value without I/O. -/
theorem runOps_small_reads (hash : List Nat → Nat) (fs : String → Option (List Nat)) :
    ∀ ops : List (FileInfo → Option Nat × FileInfo × Nat),
      (∀ op ∈ ops, ∀ fi : FileInfo, fi.size ≤ FULL_HASH_THRESHOLD →
          op fi = compute_full_hash hash fs fi) →
      ∀ fi : FileInfo, fi.size ≤ FULL_HASH_THRESHOLD → (runOps ops fi).2 ≤ 1 := by
  intro ops
  induction ops with
  | nil => intro _ fi _; simp [runOps]
  | cons op rest ih =>
      intro hops fi hsize
      have hop : op fi = compute_full_hash hash fs fi := hops op (by simp) fi hsize
      have hrest : ∀ o ∈ rest, ∀ fi' : FileInfo, fi'.size ≤ FULL_HASH_THRESHOLD →
          o fi' = compute_full_hash hash fs fi' :=
        fun o ho fi' h' => hops o (by simp [ho]) fi' h'
      by_cases hfh : fi.full_hash
      · have hcall : op fi = (fi.full_hash_value, fi, 0) := by
          rw [hop]; simp [compute_full_hash, hfh]
        have hs := ih hrest fi hsize
        simpa [runOps, hcall] using hs
      · cases hfs : fs fi.path with
        | none =>
            have hcall : op fi = (none, fi, 0) := by
              rw [hop]; simp [compute_full_hash, hfh, hfs]
            have hs := ih hrest fi hsize
            simpa [runOps, hcall] using hs
        | some contents =>
            have hcall : op fi = (some (hash contents),
                { fi with full_hash := true, full_hash_value := some (hash contents) }, 1) := by
              rw [hop]; simp [compute_full_hash, hfh, hfs]
            have hcached := runOps_cached hash fs rest hrest
                { fi with full_hash := true, full_hash_value := some (hash contents) }
                (by simpa using hsize) (by simp)
            simp [runOps, hcall, hcached]

/-- C5: for a record of size at most 254 KiB, every anchor-region
digest operation returns the same result as the whole-file digest of
that record, and running all five anchor operations in sequence on the
record performs at most one whole-file read (the first successful call
caches the digest; later calls return the cached value with no I/O). -/
theorem C5_small_file_short_circuit (hash : List Nat → Nat) (fs : String → Option (List Nat))
    (file_info : FileInfo) (h : file_info.size ≤ FULL_HASH_THRESHOLD) :
    compute_partial_hash hash fs file_info = compute_full_hash hash fs file_info ∧
    compute_end_hash hash fs file_info = compute_full_hash hash fs file_info ∧
    compute_middle_hash hash fs file_info = compute_full_hash hash fs file_info ∧
    compute_first_quarter_hash hash fs file_info = compute_full_hash hash fs file_info ∧
    compute_third_quarter_hash hash fs file_info = compute_full_hash hash fs file_info ∧
    (runOps [compute_partial_hash hash fs, compute_end_hash hash fs,
        compute_middle_hash hash fs, compute_first_quarter_hash hash fs,
        compute_third_quarter_hash hash fs] file_info).2 ≤ 1 := by
  refine ⟨compute_partial_hash_small hash fs file_info h,
    compute_end_hash_small hash fs file_info h,
    compute_middle_hash_small hash fs file_info h,
    compute_first_quarter_hash_small hash fs file_info h,
    compute_third_quarter_hash_small hash fs file_info h, ?_⟩
  apply runOps_small_reads hash fs _ _ file_info h
  intro op hop fi' h'
  simp only [List.mem_cons, List.not_mem_nil, or_false] at hop
  rcases hop with rfl | rfl | rfl | rfl | rfl
  · exact compute_partial_hash_small hash fs fi' h'
  · exact compute_end_hash_small hash fs fi' h'
  · exact compute_middle_hash_small hash fs fi' h'
  · exact compute_first_quarter_hash_small hash fs fi' h'
  · exact compute_third_quarter_hash_small hash fs fi' h'

/-- Witness for C5 at a concrete three-byte record. -/
theorem C5_small_file_short_circuit_witness :
    compute_partial_hash hashW fsW recA = compute_full_hash hashW fsW recA ∧
    (runOps [compute_partial_hash hashW fsW, compute_end_hash hashW fsW,
        compute_middle_hash hashW fsW, compute_first_quarter_hash hashW fsW,
        compute_third_quarter_hash hashW fsW] recA).2 ≤ 1 :=
  ⟨(C5_small_file_short_circuit hashW fsW recA (by decide)).1,
   (C5_small_file_short_circuit hashW fsW recA (by decide)).2.2.2.2.2⟩

/-- C10: for a mode outside `fast`/`normal`/`full`, `find_duplicates`
still runs the SIZE, PARTIAL, END and MIDDLE stages but every surviving
MIDDLE bucket falls through all mode branches, so the returned list of
duplicate groups is empty (and no error is raised — the function is
total). -/
theorem C10_unknown_mode (hash : List Nat → Nat) (fs : String → Option (List Nat))
    (files : List FileInfo) (mode : String)
    (h1 : mode ≠ "fast") (h2 : mode ≠ "normal") (h3 : mode ≠ "full") :
    find_duplicates hash fs files mode = [] := by
  have hmid : ∀ (size : Nat) (l : List FileInfo),
      process_middle_bucket hash fs mode size l = [] := by
    intro size l
    simp [process_middle_bucket, h1, h2, h3]
  unfold find_duplicates
  rw [List.flatMap_eq_nil_iff]
  intro b _
  unfold process_size_bucket
  split
  · rfl
  rw [List.flatMap_eq_nil_iff]
  intro pb _
  unfold process_partial_bucket
  split
  · rfl
  rw [List.flatMap_eq_nil_iff]
  intro eb _
  unfold process_end_bucket
  split
  · rfl
  rw [List.flatMap_eq_nil_iff]
  intro mb _
  exact hmid b.1 mb.2

/-- Witness for C10 with the unknown mode `turbo` on two duplicate
records. -/
theorem C10_unknown_mode_witness :
    find_duplicates hashW fsW [recA, recB] "turbo" = [] :=
  C10_unknown_mode hashW fsW [recA, recB] "turbo" (by decide) (by decide) (by decide)

/-- Looking a key up after inserting one record: the bucket for the
inserted key gains the record at its end, every other bucket is
untouched. -/
theorem lookupB_insertGroup {κ : Type} [DecidableEq κ]
    (groups : List (κ × List FileInfo)) (k' k : κ) (fi : FileInfo) :
    lookupB (insertGroup groups k' fi) k
      = if k = k' then lookupB groups k ++ [fi] else lookupB groups k := by
  induction groups with
  | nil =>
      by_cases h : k = k' <;> simp [insertGroup, lookupB, h]
  | cons b rest ih =>
      obtain ⟨k₀, l₀⟩ := b
      by_cases h0 : k' = k₀
      · subst h0
        by_cases h : k = k' <;> simp [insertGroup, lookupB, h]
      · by_cases h : k = k₀
        · subst h
          simp [insertGroup, lookupB, h0, Ne.symm h0]
        · simp [insertGroup, lookupB, h0, h, ih]

/-- Folding the `group_files` step over a list extends each bucket by
the in-order filter of the records that produce that key. -/
theorem lookupB_groupStep_foldl {κ : Type} [DecidableEq κ] (key_func : FileInfo → Option κ) :
    ∀ (l : List FileInfo) (acc : List (κ × List FileInfo)) (k : κ),
      lookupB (l.foldl (groupStep key_func) acc) k
        = lookupB acc k ++ l.filter (fun fi => decide (key_func fi = some k)) := by
  intro l
  induction l with
  | nil => intro acc k; simp
  | cons fi rest ih =>
      intro acc k
      simp only [List.foldl_cons, List.filter_cons]
      cases hkey : key_func fi with
      | none => simp [groupStep, hkey, ih]
      | some k' =>
          by_cases hk : k = k'
          · subst hk
            simp [groupStep, hkey, ih, lookupB_insertGroup]
          · simp [groupStep, hkey, ih, lookupB_insertGroup, hk, Ne.symm hk]

/-- Folding the `group_files` step ignores exactly the records whose
key function produces no key. -/
theorem groupStep_foldl_filter {κ : Type} [DecidableEq κ] (key_func : FileInfo → Option κ) :
    ∀ (l : List FileInfo) (acc : List (κ × List FileInfo)),
      l.foldl (groupStep key_func) acc
        = (l.filter (fun fi => (key_func fi).isSome)).foldl (groupStep key_func) acc := by
  intro l
  induction l with
  | nil => intro acc; rfl
  | cons fi rest ih =>
      intro acc
      simp only [List.foldl_cons, List.filter_cons]
      cases hkey : key_func fi with
      | none => simp [groupStep, hkey, ih]
      | some k' => simp [groupStep, hkey, ih]

/-- C8: `group_files` never propagates a failure of the key function
for a single record.  A record whose key function fails or returns no
key (`none`) is dropped; every other record is appended to the bucket
for its key in input order — each bucket is exactly the in-order filter
of the input by that key — and the grouping equals the grouping of the
input with the failing records removed. -/
theorem C8_group_files_fault_isolation {κ : Type} [DecidableEq κ]
    (key_func : FileInfo → Option κ) (file_infos : List FileInfo) :
    (∀ k : κ, lookupB (group_files key_func file_infos) k
        = file_infos.filter (fun fi => decide (key_func fi = some k))) ∧
    group_files key_func file_infos
      = group_files key_func (file_infos.filter (fun fi => (key_func fi).isSome)) := by
  constructor
  · intro k
    have h := lookupB_groupStep_foldl key_func file_infos [] k
    simpa [group_files, lookupB] using h
  · have h := groupStep_foldl_filter key_func file_infos []
    simpa [group_files] using h

/-- Inserting a record appends it, up to permutation, to the flattened
bucket contents. -/
theorem flatMap_insertGroup {κ : Type} [DecidableEq κ]
    (groups : List (κ × List FileInfo)) (k : κ) (fi : FileInfo) :
    ((insertGroup groups k fi).flatMap (fun b => b.2)).Perm
      (groups.flatMap (fun b => b.2) ++ [fi]) := by
  induction groups with
  | nil => simp [insertGroup]
  | cons b rest ih =>
      obtain ⟨k₀, l₀⟩ := b
      by_cases h : k = k₀
      · simp only [insertGroup, if_pos h, List.flatMap_cons, List.append_assoc]
        exact List.Perm.append_left l₀ List.perm_append_comm
      · simp only [insertGroup, if_neg h, List.flatMap_cons, List.append_assoc]
        exact List.Perm.append_left l₀ ih

/-- The flattened buckets of the size-grouping fold are a permutation
of the accumulator's contents followed by the input records. -/
theorem flatMap_group_by_size_foldl :
    ∀ (l : List FileInfo) (acc : List (Nat × List FileInfo)),
      ((l.foldl (fun groups fi => insertGroup groups fi.size fi) acc).flatMap
          (fun b => b.2)).Perm (acc.flatMap (fun b => b.2) ++ l) := by
  intro l
  induction l with
  | nil => intro acc; simp
  | cons fi rest ih =>
      intro acc
      simp only [List.foldl_cons]
      refine (ih (insertGroup acc fi.size fi)).trans ?_
      refine ((flatMap_insertGroup acc fi.size fi).append_right rest).trans ?_
      simp [List.append_assoc]

/-- C9: `group_by_size` is total and lossless — every bucket keyed `s`
is exactly the in-order filter of the input records of size `s`, and
the buckets together are a permutation of the input, so the output is a
partition of the input list (the function takes no filesystem and
performs no I/O by construction). -/
theorem C9_group_by_size_partition (file_infos : List FileInfo) :
    (∀ s : Nat, lookupB (group_by_size file_infos) s
        = file_infos.filter (fun fi => decide (fi.size = s))) ∧
    ((group_by_size file_infos).flatMap (fun b => b.2)).Perm file_infos := by
  constructor
  · intro s
    have e : group_by_size file_infos
        = file_infos.foldl (groupStep (fun fi => some fi.size)) [] := rfl
    rw [e, lookupB_groupStep_foldl]
    simp only [lookupB, List.nil_append]
    refine List.filter_congr ?_
    intro fi _
    simp
  · have h := flatMap_group_by_size_foldl file_infos []
    simpa [group_by_size] using h

/-- Pointwise-equal functions give equal flat-maps. -/
theorem flatMap_congr_mem {α β : Type _} (l : List α) {f g : α → List β}
    (h : ∀ x ∈ l, f x = g x) : l.flatMap f = l.flatMap g := by
  induction l with
  | nil => rfl
  | cons x rest ih =>
      simp only [List.flatMap_cons]
      rw [h x (by simp), ih (fun y hy => h y (by simp [hy]))]

/-- A record found in a bucket after an insertion was either already in
some bucket or is the inserted record. -/
theorem mem_bucket_insertGroup {κ : Type} [DecidableEq κ]
    (groups : List (κ × List FileInfo)) (k : κ) (fi : FileInfo) :
    ∀ b ∈ insertGroup groups k fi, ∀ x ∈ b.2,
      (∃ b' ∈ groups, x ∈ b'.2) ∨ x = fi := by
  induction groups with
  | nil =>
      intro b hb x hx
      simp only [insertGroup, List.mem_singleton] at hb
      subst hb
      simp only [List.mem_singleton] at hx
      exact Or.inr hx
  | cons b₀ rest ih =>
      obtain ⟨k₀, l₀⟩ := b₀
      intro b hb x hx
      by_cases h : k = k₀
      · simp only [insertGroup, if_pos h, List.mem_cons] at hb
        rcases hb with rfl | hb
        · simp only [List.mem_append, List.mem_singleton] at hx
          rcases hx with hx | hx
          · exact Or.inl ⟨(k₀, l₀), by simp, hx⟩
          · exact Or.inr hx
        · exact Or.inl ⟨b, by simp [hb], hx⟩
      · simp only [insertGroup, if_neg h, List.mem_cons] at hb
        rcases hb with rfl | hb
        · exact Or.inl ⟨(k₀, l₀), by simp, hx⟩
        · rcases ih b hb x hx with ⟨b', hb', hx'⟩ | hx'
          · exact Or.inl ⟨b', by simp [hb'], hx'⟩
          · exact Or.inr hx'

/-- A record found in any bucket of the grouping fold came from the
accumulator or from the input list. -/
theorem mem_bucket_groupStep_foldl {κ : Type} [DecidableEq κ] (key_func : FileInfo → Option κ) :
    ∀ (l : List FileInfo) (acc : List (κ × List FileInfo))
      (b : κ × List FileInfo) (x : FileInfo),
      b ∈ l.foldl (groupStep key_func) acc → x ∈ b.2 →
      (∃ b' ∈ acc, x ∈ b'.2) ∨ x ∈ l := by
  intro l
  induction l with
  | nil => intro acc b x hb hx; exact Or.inl ⟨b, hb, hx⟩
  | cons fi rest ih =>
      intro acc b x hb hx
      simp only [List.foldl_cons] at hb
      rcases ih (groupStep key_func acc fi) b x hb hx with ⟨b', hb', hx'⟩ | hx'
      · cases hkey : key_func fi with
        | none =>
            rw [groupStep, hkey] at hb'
            exact Or.inl ⟨b', hb', hx'⟩
        | some k =>
            rw [groupStep, hkey] at hb'
            rcases mem_bucket_insertGroup acc k fi b' hb' x hx' with ⟨b'', hb'', hx''⟩ | hx''
            · exact Or.inl ⟨b'', hb'', hx''⟩
            · exact Or.inr (by simp [hx''])
      · exact Or.inr (by simp [hx'])

/-- Every record in a `group_files` bucket is an input record. -/
theorem mem_of_mem_group_files {κ : Type} [DecidableEq κ]
    {key_func : FileInfo → Option κ} {file_infos : List FileInfo}
    {b : κ × List FileInfo} {x : FileInfo}
    (hb : b ∈ group_files key_func file_infos) (hx : x ∈ b.2) : x ∈ file_infos := by
  rcases mem_bucket_groupStep_foldl key_func file_infos [] b x hb hx with ⟨b', hb', _⟩ | hx'
  · simp at hb'
  · exact hx'

/-- A key/record invariant survives one insertion. -/
theorem key_invariant_insertGroup {κ : Type} [DecidableEq κ] {Q : κ → FileInfo → Prop} :
    ∀ (groups : List (κ × List FileInfo)) (k : κ) (fi : FileInfo),
      (∀ b ∈ groups, ∀ x ∈ b.2, Q b.1 x) → Q k fi →
      ∀ b ∈ insertGroup groups k fi, ∀ x ∈ b.2, Q b.1 x := by
  intro groups
  induction groups with
  | nil =>
      intro k fi _ hfi b hb x hx
      simp only [insertGroup, List.mem_singleton] at hb
      subst hb
      simp only [List.mem_singleton] at hx
      subst hx
      exact hfi
  | cons b₀ rest ih =>
      obtain ⟨k₀, l₀⟩ := b₀
      intro k fi hg hfi b hb x hx
      by_cases h : k = k₀
      · simp only [insertGroup, if_pos h, List.mem_cons] at hb
        rcases hb with rfl | hb
        · simp only [List.mem_append, List.mem_singleton] at hx
          rcases hx with hx | hx
          · exact hg (k₀, l₀) (by simp) x hx
          · subst hx; subst h; exact hfi
        · exact hg b (by simp [hb]) x hx
      · simp only [insertGroup, if_neg h, List.mem_cons] at hb
        rcases hb with rfl | hb
        · exact hg (k₀, l₀) (by simp) x hx
        · exact ih k fi (fun b' hb' => hg b' (by simp [hb'])) hfi b hb x hx

/-- A key/record invariant survives the whole grouping fold. -/
theorem key_invariant_groupStep_foldl {κ : Type} [DecidableEq κ] {Q : κ → FileInfo → Prop}
    (key_func : FileInfo → Option κ) :
    ∀ (l : List FileInfo) (acc : List (κ × List FileInfo)),
      (∀ b ∈ acc, ∀ x ∈ b.2, Q b.1 x) →
      (∀ fi ∈ l, ∀ k : κ, key_func fi = some k → Q k fi) →
      ∀ b ∈ l.foldl (groupStep key_func) acc, ∀ x ∈ b.2, Q b.1 x := by
  intro l
  induction l with
  | nil => intro acc hacc _ b hb x hx; exact hacc b hb x hx
  | cons fi rest ih =>
      intro acc hacc hl b hb x hx
      simp only [List.foldl_cons] at hb
      refine ih (groupStep key_func acc fi) ?_ (fun y hy k hk => hl y (by simp [hy]) k hk) b hb x hx
      cases hkey : key_func fi with
      | none => rw [groupStep, hkey]; exact hacc
      | some k =>
          rw [groupStep, hkey]
          exact key_invariant_insertGroup acc k fi hacc (hl fi (by simp) k hkey)

/-- Every record in a `group_by_size` bucket is an input record of
exactly the bucket's size. -/
theorem mem_of_mem_group_by_size {file_infos : List FileInfo}
    {b : Nat × List FileInfo} {x : FileInfo}
    (hb : b ∈ group_by_size file_infos) (hx : x ∈ b.2) :
    x ∈ file_infos ∧ x.size = b.1 := by
  have e : group_by_size file_infos
      = file_infos.foldl (groupStep (fun fi => some fi.size)) [] := rfl
  rw [e] at hb
  constructor
  · rcases mem_bucket_groupStep_foldl (fun fi => some fi.size) file_infos [] b x hb hx with
      ⟨b', hb', _⟩ | hx'
    · simp at hb'
    · exact hx'
  · refine @key_invariant_groupStep_foldl Nat _ (fun k x => x.size = k)
      (fun fi => some fi.size) file_infos [] (by simp) ?_ b hb x hx
    intro fi _ k hk
    simpa using hk

/-- Every group emitted by `emitGroups` has at least two files, carries
the given size, and its file list is the path image of one of the
buckets with at least two members. -/
theorem emitGroups_mem {size : Nat} {buckets : List (Nat × List FileInfo)}
    {g : CandidateGroup} (hg : g ∈ emitGroups size buckets) :
    2 ≤ g.files.length ∧ g.size = size ∧
    ∃ b ∈ buckets, g.files = b.2.map (fun f => f.path) := by
  simp only [emitGroups, List.mem_map, List.mem_filter] at hg
  obtain ⟨b, ⟨hb, hlen⟩, rfl⟩ := hg
  simp only [decide_eq_true_eq] at hlen
  refine ⟨by simpa using hlen, rfl, b, hb, rfl⟩

/-- Groups emitted for one MIDDLE bucket: at least two files each, the
stated size, and paths drawn from the bucket. -/
theorem process_middle_bucket_mem (hash : List Nat → Nat) (fs : String → Option (List Nat))
    (mode : String) (size : Nat) (middle_files : List FileInfo) :
    ∀ g ∈ process_middle_bucket hash fs mode size middle_files,
      2 ≤ g.files.length ∧ g.size = size ∧
      ∀ p ∈ g.files, ∃ x ∈ middle_files, x.path = p := by
  intro g hg
  unfold process_middle_bucket at hg
  by_cases hlen : middle_files.length < 2
  · rw [if_pos hlen] at hg; simp at hg
  rw [if_neg hlen] at hg
  by_cases hfast : mode = "fast"
  · rw [if_pos hfast] at hg
    simp only [List.mem_singleton] at hg
    subst hg
    refine ⟨by simpa using Nat.le_of_not_lt hlen, rfl, ?_⟩
    intro p hp
    simp only [List.mem_map] at hp
    obtain ⟨x, hx, rfl⟩ := hp
    exact ⟨x, hx, rfl⟩
  rw [if_neg hfast] at hg
  by_cases hnorm : mode = "normal"
  · rw [if_pos hnorm] at hg
    unfold process_middle_normal at hg
    set fqg := group_by_first_quarter_hash hash fs middle_files with hfqg
    by_cases hc : fqg.length = (fqg.filter (fun b => decide (2 ≤ b.2.length))).length ∧
        (fqg.map (fun b => b.2.length)).sum
          = ((fqg.filter (fun b => decide (2 ≤ b.2.length))).map (fun b => b.2.length)).sum
    · rw [if_pos hc] at hg
      obtain ⟨h2, hsz, b, hb, hfiles⟩ := emitGroups_mem hg
      refine ⟨h2, hsz, ?_⟩
      intro p hp
      rw [hfiles] at hp
      simp only [List.mem_map] at hp
      obtain ⟨x, hx, rfl⟩ := hp
      exact ⟨x, mem_of_mem_group_files hb hx, rfl⟩
    · rw [if_neg hc] at hg
      simp only [List.mem_flatMap] at hg
      obtain ⟨b, hb, hg⟩ := hg
      unfold process_fq_bucket at hg
      by_cases hb2 : b.2.length < 2
      · rw [if_pos hb2] at hg; simp at hg
      rw [if_neg hb2] at hg
      obtain ⟨h2, hsz, tb, htb, hfiles⟩ := emitGroups_mem hg
      refine ⟨h2, hsz, ?_⟩
      intro p hp
      rw [hfiles] at hp
      simp only [List.mem_map] at hp
      obtain ⟨x, hx, rfl⟩ := hp
      exact ⟨x, mem_of_mem_group_files hb (mem_of_mem_group_files htb hx), rfl⟩
  rw [if_neg hnorm] at hg
  by_cases hfull : mode = "full"
  · rw [if_pos hfull] at hg
    obtain ⟨h2, hsz, b, hb, hfiles⟩ := emitGroups_mem hg
    refine ⟨h2, hsz, ?_⟩
    intro p hp
    rw [hfiles] at hp
    simp only [List.mem_map] at hp
    obtain ⟨x, hx, rfl⟩ := hp
    exact ⟨x, mem_of_mem_group_files hb hx, rfl⟩
  · rw [if_neg hfull] at hg; simp at hg

/-- Groups emitted for one END bucket. -/
theorem process_end_bucket_mem (hash : List Nat → Nat) (fs : String → Option (List Nat))
    (mode : String) (size : Nat) (end_files : List FileInfo) :
    ∀ g ∈ process_end_bucket hash fs mode size end_files,
      2 ≤ g.files.length ∧ g.size = size ∧
      ∀ p ∈ g.files, ∃ x ∈ end_files, x.path = p := by
  intro g hg
  unfold process_end_bucket at hg
  by_cases hlen : end_files.length < 2
  · rw [if_pos hlen] at hg; simp at hg
  rw [if_neg hlen] at hg
  simp only [List.mem_flatMap] at hg
  obtain ⟨b, hb, hg⟩ := hg
  obtain ⟨h2, hsz, hpaths⟩ := process_middle_bucket_mem hash fs mode size b.2 g hg
  refine ⟨h2, hsz, ?_⟩
  intro p hp
  obtain ⟨x, hx, rfl⟩ := hpaths p hp
  exact ⟨x, mem_of_mem_group_files hb hx, rfl⟩

/-- Groups emitted for one PARTIAL bucket. -/
theorem process_partial_bucket_mem (hash : List Nat → Nat) (fs : String → Option (List Nat))
    (mode : String) (size : Nat) (partial_files : List FileInfo) :
    ∀ g ∈ process_partial_bucket hash fs mode size partial_files,
      2 ≤ g.files.length ∧ g.size = size ∧
      ∀ p ∈ g.files, ∃ x ∈ partial_files, x.path = p := by
  intro g hg
  unfold process_partial_bucket at hg
  by_cases hlen : partial_files.length < 2
  · rw [if_pos hlen] at hg; simp at hg
  rw [if_neg hlen] at hg
  simp only [List.mem_flatMap] at hg
  obtain ⟨b, hb, hg⟩ := hg
  obtain ⟨h2, hsz, hpaths⟩ := process_end_bucket_mem hash fs mode size b.2 g hg
  refine ⟨h2, hsz, ?_⟩
  intro p hp
  obtain ⟨x, hx, rfl⟩ := hpaths p hp
  exact ⟨x, mem_of_mem_group_files hb hx, rfl⟩

/-- Groups emitted for one SIZE bucket. -/
theorem process_size_bucket_mem (hash : List Nat → Nat) (fs : String → Option (List Nat))
    (mode : String) (size : Nat) (same_size_files : List FileInfo) :
    ∀ g ∈ process_size_bucket hash fs mode size same_size_files,
      2 ≤ g.files.length ∧ g.size = size ∧
      ∀ p ∈ g.files, ∃ x ∈ same_size_files, x.path = p := by
  intro g hg
  unfold process_size_bucket at hg
  by_cases hlen : same_size_files.length < 2
  · rw [if_pos hlen] at hg; simp at hg
  rw [if_neg hlen] at hg
  simp only [List.mem_flatMap] at hg
  obtain ⟨b, hb, hg⟩ := hg
  obtain ⟨h2, hsz, hpaths⟩ := process_partial_bucket_mem hash fs mode size b.2 g hg
  refine ⟨h2, hsz, ?_⟩
  intro p hp
  obtain ⟨x, hx, rfl⟩ := hpaths p hp
  exact ⟨x, mem_of_mem_group_files hb hx, rfl⟩

/-- C2: no bucket with fewer than two members survives a stage
boundary — every stage's processing function emits nothing for a bucket
of fewer than two files (so such a bucket is never passed on), and
every `CandidateGroup` in the final output of `find_duplicates`
contains at least two files, for every input list and every mode. -/
theorem C2_pruning_invariant (hash : List Nat → Nat) (fs : String → Option (List Nat))
    (mode : String) :
    (∀ (files : List FileInfo) (g : CandidateGroup),
        g ∈ find_duplicates hash fs files mode → 2 ≤ g.files.length) ∧
    (∀ (size : Nat) (bucket : List FileInfo), bucket.length < 2 →
        process_size_bucket hash fs mode size bucket = [] ∧
        process_partial_bucket hash fs mode size bucket = [] ∧
        process_end_bucket hash fs mode size bucket = [] ∧
        process_middle_bucket hash fs mode size bucket = []) := by
  constructor
  · intro files g hg
    unfold find_duplicates at hg
    simp only [List.mem_flatMap] at hg
    obtain ⟨b, hb, hg⟩ := hg
    exact (process_size_bucket_mem hash fs mode b.1 b.2 g hg).1
  · intro size bucket h
    exact ⟨by simp [process_size_bucket, h], by simp [process_partial_bucket, h],
      by simp [process_end_bucket, h], by simp [process_middle_bucket, h]⟩

/-- Witness for C2 on a concrete run. -/
theorem C2_pruning_invariant_witness :
    2 ≤ (CandidateGroup.mk 3 ["a", "b"]).files.length :=
  (C2_pruning_invariant hashW fsW "fast").1 [recA, recB, recC]
    (CandidateGroup.mk 3 ["a", "b"]) (by decide)

/-- C3: every group emitted by `find_duplicates` is size-homogeneous —
each path in the group belongs to an input record whose size is exactly
the group's single `size` value (the size of the SIZE bucket the group
originated from). -/
theorem C3_size_homogeneity (hash : List Nat → Nat) (fs : String → Option (List Nat))
    (files : List FileInfo) (mode : String) (g : CandidateGroup)
    (hg : g ∈ find_duplicates hash fs files mode) :
    ∀ p ∈ g.files, ∃ fi : FileInfo, fi ∈ files ∧ fi.path = p ∧ fi.size = g.size := by
  unfold find_duplicates at hg
  simp only [List.mem_flatMap] at hg
  obtain ⟨b, hb, hg⟩ := hg
  obtain ⟨_, hsz, hpaths⟩ := process_size_bucket_mem hash fs mode b.1 b.2 g hg
  intro p hp
  obtain ⟨x, hx, rfl⟩ := hpaths p hp
  obtain ⟨hmem, hsize⟩ := mem_of_mem_group_by_size hb hx
  exact ⟨x, hmem, rfl, by rw [hsize, hsz]⟩

/-- Witness for C3 on a concrete run. -/
theorem C3_size_homogeneity_witness :
    ∃ fi : FileInfo, fi ∈ [recA, recB, recC] ∧ fi.path = "a" ∧
      fi.size = (CandidateGroup.mk 3 ["a", "b"]).size :=
  C3_size_homogeneity hashW fsW [recA, recB, recC] "fast"
    (CandidateGroup.mk 3 ["a", "b"]) (by decide) "a" (by decide)

/-- C4: for identical input records, every mode computes the same
SIZE → PARTIAL → END → MIDDLE front of the cascade — `find_duplicates`
factors through the mode-independent `middle_survivors` (which never
consults the mode), and the modes differ only in how
`process_middle_bucket` handles each surviving MIDDLE bucket. -/
theorem C4_modes_agree_through_middle (hash : List Nat → Nat)
    (fs : String → Option (List Nat)) (files : List FileInfo) (mode : String) :
    find_duplicates hash fs files mode
      = (middle_survivors hash fs files).flatMap
          (fun p => process_middle_bucket hash fs mode p.1 p.2) := by
  unfold find_duplicates middle_survivors
  rw [List.flatMap_assoc]
  refine flatMap_congr_mem _ ?_
  intro sb _
  by_cases h2 : sb.2.length < 2
  · simp [process_size_bucket, h2]
  unfold process_size_bucket
  rw [if_neg h2, if_neg h2, List.flatMap_assoc]
  refine flatMap_congr_mem _ ?_
  intro pb _
  by_cases hp : pb.2.length < 2
  · simp [process_partial_bucket, hp]
  unfold process_partial_bucket
  rw [if_neg hp, if_neg hp, List.flatMap_assoc]
  refine flatMap_congr_mem _ ?_
  intro eb _
  by_cases he : eb.2.length < 2
  · simp [process_end_bucket, he]
  unfold process_end_bucket
  rw [if_neg he, if_neg he, List.flatMap_map]

/-- Binding a guarded emitter over buckets equals binding the plain
emitter over the buckets with at least two members. -/
theorem flatMap_two_le_filter {β : Type _} (l : List (Nat × List FileInfo))
    (f : Nat × List FileInfo → List β) :
    l.flatMap (fun b => if b.2.length < 2 then [] else f b)
      = (l.filter (fun b => decide (2 ≤ b.2.length))).flatMap f := by
  induction l with
  | nil => rfl
  | cons b rest ih =>
      by_cases h : b.2.length < 2
      · have h' : ¬ (2 ≤ b.2.length) := by omega
        simp [h, h', ih]
      · have h' : 2 ≤ b.2.length := by omega
        simp [h, h', ih]

/-- C1: in normal mode, for a surviving MIDDLE bucket, after bucketing
by FIRST_QUARTER hash the bucket count and total file count before
removing singleton buckets are compared with the same counts after; if
they are equal, THIRD_QUARTER is skipped and every bucket with at least
two members is emitted directly as a `CandidateGroup`; otherwise, for
every such bucket THIRD_QUARTER bucketing is run and only its buckets
with at least two members are emitted. -/
theorem C1_normal_short_circuit (hash : List Nat → Nat) (fs : String → Option (List Nat))
    (size : Nat) (middle_files : List FileInfo) (h : 2 ≤ middle_files.length) :
    ((group_by_first_quarter_hash hash fs middle_files).length
        = ((group_by_first_quarter_hash hash fs middle_files).filter
            (fun b => decide (2 ≤ b.2.length))).length ∧
      ((group_by_first_quarter_hash hash fs middle_files).map (fun b => b.2.length)).sum
        = (((group_by_first_quarter_hash hash fs middle_files).filter
            (fun b => decide (2 ≤ b.2.length))).map (fun b => b.2.length)).sum →
      process_middle_bucket hash fs "normal" size middle_files
        = ((group_by_first_quarter_hash hash fs middle_files).filter
            (fun b => decide (2 ≤ b.2.length))).map
            (fun b => CandidateGroup.mk size (b.2.map (fun f => f.path)))) ∧
    (¬ ((group_by_first_quarter_hash hash fs middle_files).length
        = ((group_by_first_quarter_hash hash fs middle_files).filter
            (fun b => decide (2 ≤ b.2.length))).length ∧
      ((group_by_first_quarter_hash hash fs middle_files).map (fun b => b.2.length)).sum
        = (((group_by_first_quarter_hash hash fs middle_files).filter
            (fun b => decide (2 ≤ b.2.length))).map (fun b => b.2.length)).sum) →
      process_middle_bucket hash fs "normal" size middle_files
        = ((group_by_first_quarter_hash hash fs middle_files).filter
            (fun b => decide (2 ≤ b.2.length))).flatMap
            (fun b => emitGroups size (group_by_third_quarter_hash hash fs b.2))) := by
  have hlt : ¬ (middle_files.length < 2) := by omega
  have hmode : process_middle_bucket hash fs "normal" size middle_files
      = process_middle_normal hash fs size middle_files := by
    unfold process_middle_bucket
    rw [if_neg hlt, if_neg (by decide), if_pos rfl]
  constructor
  · intro hc
    rw [hmode]
    unfold process_middle_normal
    rw [if_pos hc]
    rfl
  · intro hc
    rw [hmode]
    unfold process_middle_normal
    rw [if_neg hc]
    have := flatMap_two_le_filter (group_by_first_quarter_hash hash fs middle_files)
      (fun b => emitGroups size (group_by_third_quarter_hash hash fs b.2))
    rw [← this]
    rfl

/-- Witness for C1: the short-circuit branch fires on two identical
small files (one FIRST_QUARTER bucket of two, no singleton removed). -/
theorem C1_normal_short_circuit_witness :
    process_middle_bucket hashW fsW "normal" 3 [recA, recB]
      = ((group_by_first_quarter_hash hashW fsW [recA, recB]).filter
          (fun b => decide (2 ≤ b.2.length))).map
          (fun b => CandidateGroup.mk 3 (b.2.map (fun f => f.path))) :=
  (C1_normal_short_circuit hashW fsW 3 [recA, recB] (by decide)).1 (by decide)
